import Mathlib

/-!
Shallow embedding of the TCP socket wrapper of src/src/socket.h (POSIX
branch, where INVALID_SOCKET = -1).

Syscall results are modelled as explicit environment values handed to each
embedded function: a list of SysRes values for the send/recv loops (one
entry per issued syscall), a function from ports to BindRes for the bind
scan of TryBindHost, and plain integers for the return values of listen,
accept and socket.

The helpers utils::Error and utils::Check live in utils.h, which is not
part of the supplied source.  Modelled from the spec: an unexpected
condition "aborts the call with a descriptive message naming the operation
and the underlying platform error text"; an abort is rendered here as a
distinguished fatal outcome (or as none for the Option-valued resolver).
-/

/-- Result of one underlying send or recv syscall as observed by the
wrapper: `ok n` models a return value of n with 0 <= n; `wouldblock`
models a return of -1 with errno EAGAIN or EWOULDBLOCK; `err` models a
return of -1 with any other errno. -/
inductive SysRes where
  | ok (n : Nat)
  | wouldblock
  | err
deriving DecidableEq

/-- Outcome of TCPSocket::SendAll: `complete n` is a normal exit of the
while loop returning ndone = n; `wouldBlock n` is the early return of the
partial count n on EAGAIN/EWOULDBLOCK; `fatal` is the Socket::Error abort;
`hang` marks an environment that was exhausted while the loop still had
bytes outstanding (the run is not modelled further). -/
inductive SendOutcome where
  | complete (n : Nat)
  | wouldBlock (n : Nat)
  | fatal
  | hang
deriving DecidableEq

/-- One run of TCPSocket::SendAll: `reqs` records, per issued send
syscall, the buffer offset passed (the cumulative ndone) and the byte
count requested (len - ndone); `wire` is the concatenation of the byte
chunks accepted by the OS; `out` is the outcome. -/
structure SendRun where
  reqs : List (Nat × Nat)
  wire : List Nat
  out : SendOutcome
deriving DecidableEq

/-- Embedding of the loop body of TCPSocket::SendAll (socket.h lines
266-279): while ndone < len, call send on the remaining region; on -1
with EAGAIN/EWOULDBLOCK return ndone, on -1 otherwise abort via
Socket::Error, else advance buf and ndone by the returned count. -/
def sendAllAux (buf : List Nat) : List SysRes → Nat → SendRun
  | env, ndone =>
    if ndone < buf.length then
      match env with
      | [] => ⟨[], [], SendOutcome.hang⟩
      | SysRes.wouldblock :: _ =>
        ⟨[(ndone, buf.length - ndone)], [], SendOutcome.wouldBlock ndone⟩
      | SysRes.err :: _ =>
        ⟨[(ndone, buf.length - ndone)], [], SendOutcome.fatal⟩
      | SysRes.ok k :: rest =>
        let r := sendAllAux buf rest (ndone + k)
        ⟨(ndone, buf.length - ndone) :: r.reqs,
         (buf.drop ndone).take k ++ r.wire, r.out⟩
    else ⟨[], [], SendOutcome.complete ndone⟩

/-- TCPSocket::SendAll(buf, len) run against an environment of syscall
results, starting from ndone = 0. -/
def sendAll (buf : List Nat) (env : List SysRes) : SendRun :=
  sendAllAux buf env 0

/-- Well-formedness of a syscall-result environment for a loop over `len`
bytes starting at offset `ndone`: the OS never reports more bytes
transferred than the count that was requested at that point. -/
def envOk (len : Nat) : List SysRes → Nat → Bool
  | [], _ => true
  | SysRes.ok k :: rest, ndone => decide (k ≤ len - ndone) && envOk len rest (ndone + k)
  | SysRes.wouldblock :: _, _ => true
  | SysRes.err :: _, _ => true

/-- Outcome of TCPSocket::RecvAll: `complete n` is a normal loop exit
returning ndone = n; `wouldBlock n` the early partial return on
EAGAIN/EWOULDBLOCK; `eof n` the early partial return on a zero-byte read;
`fatal` the Socket::Error abort; `hang` an exhausted environment. -/
inductive RecvOutcome where
  | complete (n : Nat)
  | wouldBlock (n : Nat)
  | eof (n : Nat)
  | fatal
  | hang
deriving DecidableEq

/-- One run of TCPSocket::RecvAll: `reqs` records, per issued recv
syscall, the buffer offset and the byte count requested; `got` lists the
sizes of the non-empty chunks delivered; `out` is the outcome. -/
structure RecvRun where
  reqs : List (Nat × Nat)
  got : List Nat
  out : RecvOutcome
deriving DecidableEq

/-- Embedding of the loop body of TCPSocket::RecvAll (socket.h lines
287-301): while ndone < len, call recv for the remaining count; on -1
with EAGAIN/EWOULDBLOCK return ndone, on -1 otherwise abort via
Socket::Error, on a zero-byte read return ndone, else advance. -/
def recvAllAux (len : Nat) : List SysRes → Nat → RecvRun
  | env, ndone =>
    if ndone < len then
      match env with
      | [] => ⟨[], [], RecvOutcome.hang⟩
      | SysRes.wouldblock :: _ =>
        ⟨[(ndone, len - ndone)], [], RecvOutcome.wouldBlock ndone⟩
      | SysRes.err :: _ =>
        ⟨[(ndone, len - ndone)], [], RecvOutcome.fatal⟩
      | SysRes.ok k :: rest =>
        if k = 0 then ⟨[(ndone, len - ndone)], [], RecvOutcome.eof ndone⟩
        else
          let r := recvAllAux len rest (ndone + k)
          ⟨(ndone, len - ndone) :: r.reqs, k :: r.got, r.out⟩
    else ⟨[], [], RecvOutcome.complete ndone⟩

/-- TCPSocket::RecvAll(buf, len) run against an environment of syscall
results, starting from ndone = 0. -/
def recvAll (len : Nat) (env : List SysRes) : RecvRun :=
  recvAllAux len env 0

/-- Result of one bind(2) attempt at a given port, as distinguished by
Socket::TryBindHost: success, failure with errno EADDRINUSE, or failure
with any other errno. -/
inductive BindRes where
  | ok
  | inuse
  | errOther
deriving DecidableEq

/-- Outcome of Socket::TryBindHost: `bound p` means the loop returned
port p; `noPort` is the final return of the sentinel -1; `fatal p` is the
Socket::Error abort triggered while trying port p. -/
inductive BindOutcome where
  | bound (port : Int)
  | noPort
  | fatal (port : Int)
deriving DecidableEq

/-- Fuel-indexed embedding of the for loop of Socket::TryBindHost
(socket.h lines 154-165): at each port, bind; on success return the port,
on EADDRINUSE continue with the next port, on any other errno abort. -/
def tryBindAux (env : Int → BindRes) : Nat → Int → BindOutcome
  | 0, _ => BindOutcome.noPort
  | fuel + 1, port =>
    match env port with
    | BindRes.ok => BindOutcome.bound port
    | BindRes.inuse => tryBindAux env fuel (port + 1)
    | BindRes.errOther => BindOutcome.fatal port

/-- Socket::TryBindHost(start_port, end_port): iterate the ports of
[start_port, end_port) in ascending order; the loop runs for
(end_port - start_port) iterations. -/
def tryBindHost (env : Int → BindRes) (start_port end_port : Int) : BindOutcome :=
  tryBindAux env (end_port - start_port).toNat start_port

/-- Outcome of a library call that either returns a value or aborts the
operation through utils::Error (modelled from the spec as fatal). -/
inductive LibOutcome (A : Type) where
  | normal (val : A)
  | fatal
deriving DecidableEq

/-- Environment of one accept(2) call: the descriptor it returned (-1 on
failure) and whether errno was EAGAIN/EWOULDBLOCK at that point. -/
structure AcceptEnv where
  newfd : Int
  errnoIsWouldBlock : Bool
deriving DecidableEq

/-- Embedding of TCPSocket::Accept (socket.h lines 218-224): if accept
returned INVALID_SOCKET it calls Socket::Error("Accept") regardless of
errno — the errno field of the environment is never consulted — and
otherwise wraps the new descriptor. -/
def tcpAccept (e : AcceptEnv) : LibOutcome Int :=
  if e.newfd = -1 then LibOutcome.fatal else LibOutcome.normal e.newfd

/-- Embedding of TCPSocket::Listen (socket.h lines 214-216): the call
listen(sockfd, backlog) is issued and its return value is discarded; the
function returns normally whatever that value was. -/
def tcpListen (_listenRet : Int) : LibOutcome Unit :=
  LibOutcome.normal ()

/-- Outcome of Socket::Close: the valid branch closes the descriptor and
overwrites it with INVALID_SOCKET; the invalid branch reports an error
through Error (kept as a reported condition, not modelled as fatal,
to record that it is reached). -/
inductive CloseOutcome where
  | closed
  | errorReported
deriving DecidableEq

/-- Embedding of Socket::Close (socket.h lines 167-178): if sockfd is not
INVALID_SOCKET, close it and set sockfd to INVALID_SOCKET; otherwise
report "double close the socket or close without create".  Returns the
new sockfd value together with which branch was taken. -/
def socketClose (sockfd : Int) : Int × CloseOutcome :=
  if sockfd ≠ -1 then (-1, CloseOutcome.closed)
  else (sockfd, CloseOutcome.errorReported)

/-- Embedding of TCPSocket::Create (socket.h lines 204-209): the socket
syscall returns `ret`; if it is INVALID_SOCKET the wrapper aborts via
Socket::Error, otherwise the handle now holds `ret`. -/
def socketCreate (ret : Int) : Option Int :=
  if ret = -1 then none else some ret

/-- Embedding of TCPSocket::Send (socket.h lines 241-245): a zero-length
buffer returns 0 with no syscall; otherwise the send syscall is issued and
its return value is passed through.  The second component counts the
syscalls issued. -/
def tcpSend (len : Nat) (sendRet : Int) : Int × Nat :=
  if len = 0 then (0, 0) else (sendRet, 1)

/-- Embedding of TCPSocket::Recv (socket.h lines 254-258): a zero-length
buffer returns 0 with no syscall; otherwise the recv syscall is issued and
its return value is passed through.  The second component counts the
syscalls issued. -/
def tcpRecv (len : Nat) (recvRet : Int) : Int × Nat :=
  if len = 0 then (0, 0) else (recvRet, 1)

/-- Byte swap of a 16-bit value, the action of htons/ntohs on a
little-endian host (on a big-endian host both are the identity; the
round-trip composition is the same either way). -/
def swap16 (x : Nat) : Nat :=
  x % 256 * 256 + x / 256 % 256

/-- htons as used by SockAddr::Set: the int port is converted to the
16-bit wire value and byte-swapped. -/
def htons (port : Nat) : Nat :=
  swap16 (port % 65536)

/-- ntohs as used by SockAddr::port. -/
def ntohs (x : Nat) : Nat :=
  swap16 x

/-- The sockaddr_in value stored inside SockAddr: the network-order port
and the four host address bytes copied from h_addr_list[0]. -/
structure SockAddr where
  sin_port : Nat
  sin_addr : List Nat
deriving DecidableEq

/-- Embedding of SockAddr::Set (socket.h lines 53-60): gethostbyname
either fails (utils::Check aborts, modelled as none) or yields the host
bytes; on success the struct is zeroed and filled with sin_port =
htons(port) and the host bytes. -/
def sockAddrSet (resolved : Option (List Nat)) (port : Nat) : Option SockAddr :=
  match resolved with
  | none => none
  | some hostBytes => some { sin_port := htons port, sin_addr := hostBytes }

/-- Embedding of SockAddr::port (socket.h lines 62-64). -/
def sockAddrPort (a : SockAddr) : Nat :=
  ntohs a.sin_port

/-- State of a SelectHelper: the three interest lists (std::vector
push_back order) and the tracked maxfd. -/
structure SelectHelper where
  read_fds : List Int
  write_fds : List Int
  except_fds : List Int
  maxfd : Int
deriving DecidableEq

/-- SelectHelper::Clear (socket.h lines 360-365): empty the three lists
and reset maxfd to 0; the previous state is discarded. -/
def SelectHelper.clearAll (_s : SelectHelper) : SelectHelper :=
  ⟨[], [], [], 0⟩

/-- The state established by the SelectHelper constructor, which calls
Clear(). -/
def initHelper : SelectHelper :=
  ⟨[], [], [], 0⟩

/-- SelectHelper::WatchRead (socket.h lines 316-319). -/
def SelectHelper.watchRead (s : SelectHelper) (fd : Int) : SelectHelper :=
  { s with read_fds := s.read_fds ++ [fd],
           maxfd := if fd > s.maxfd then fd else s.maxfd }

/-- SelectHelper::WatchWrite (socket.h lines 324-327). -/
def SelectHelper.watchWrite (s : SelectHelper) (fd : Int) : SelectHelper :=
  { s with write_fds := s.write_fds ++ [fd],
           maxfd := if fd > s.maxfd then fd else s.maxfd }

/-- SelectHelper::WatchException (socket.h lines 332-335). -/
def SelectHelper.watchException (s : SelectHelper) (fd : Int) : SelectHelper :=
  { s with except_fds := s.except_fds ++ [fd],
           maxfd := if fd > s.maxfd then fd else s.maxfd }

/-- All descriptors registered across the three interest sets. -/
def SelectHelper.allFds (s : SelectHelper) : List Int :=
  s.read_fds ++ s.write_fds ++ s.except_fds

/-- One call against a SelectHelper: one of the three Watch registrations
or Clear. -/
inductive WatchOp where
  | wr (fd : Int)
  | ww (fd : Int)
  | we (fd : Int)
  | clearOp
deriving DecidableEq

/-- Apply one call to a SelectHelper state. -/
def applyOp (s : SelectHelper) : WatchOp → SelectHelper
  | WatchOp.wr fd => s.watchRead fd
  | WatchOp.ww fd => s.watchWrite fd
  | WatchOp.we fd => s.watchException fd
  | WatchOp.clearOp => s.clearAll

/-- Run a sequence of calls against a freshly constructed SelectHelper. -/
def runOps (ops : List WatchOp) : SelectHelper :=
  ops.foldl applyOp initHelper

/-- Whether the descriptor registered by a call is non-negative (Clear
registers none). -/
def WatchOp.fdNonneg : WatchOp → Bool
  | WatchOp.wr fd => decide (0 ≤ fd)
  | WatchOp.ww fd => decide (0 ≤ fd)
  | WatchOp.we fd => decide (0 ≤ fd)
  | WatchOp.clearOp => true

/-- Invariant tying maxfd to the registered descriptors: maxfd bounds
every registered descriptor, is 0 or itself registered, and every
registered descriptor is non-negative. -/
def goodHelper (s : SelectHelper) : Prop :=
  (∀ fd ∈ s.allFds, fd ≤ s.maxfd) ∧
  (s.maxfd = 0 ∨ s.maxfd ∈ s.allFds) ∧
  (∀ fd ∈ s.allFds, 0 ≤ fd)

/-- The timeout argument handed to select(2) by SelectHelper::Select:
either the null pointer (block until some descriptor is ready) or a
timeval of the given seconds and microseconds. -/
inductive TimeoutArg where
  | blockForever
  | finite (sec : Int) (usec : Int)
deriving DecidableEq

/-- Embedding of the timeout handling of SelectHelper::Select (socket.h
lines 385-394): a timeout of exactly 0 passes NULL to select, any other
value is split into tv_sec = timeout / 1000 and tv_usec =
(timeout % 1000) * 1000. -/
def selectTimeoutArg (timeout : Int) : TimeoutArg :=
  if timeout = 0 then TimeoutArg.blockForever
  else TimeoutArg.finite (timeout / 1000) (timeout % 1000 * 1000)

/-- Bind environment used to exercise TryBindHost: every port below 9002
is in use, the rest bind successfully. -/
def envBindW : Int → BindRes :=
  fun p => if p < 9002 then BindRes.inuse else BindRes.ok

/-- The 16-bit byte swap is an involution on values below 2^16. -/
theorem swap16_swap16 (x : Nat) (h : x < 65536) : swap16 (swap16 x) = x := by
  unfold swap16
  have h1 : x / 256 % 256 = x / 256 := Nat.mod_eq_of_lt (by omega)
  rw [h1]
  have h2 : (x % 256 * 256 + x / 256) % 256 = x / 256 := by
    omega
  have h3 : (x % 256 * 256 + x / 256) / 256 = x % 256 := by
    rw [Nat.add_comm, Nat.add_mul_div_right _ _ (by omega : 0 < 256)]
    omega
  rw [h2, h3]
  omega

/-- C4 counterexample: when accept fails with a would-block errno (non-
blocking listener, no pending connection), TCPSocket::Accept aborts
fatally instead of surfacing a recoverable WouldBlock result. -/
theorem tcpAccept_wouldblock_fatal :
    tcpAccept { newfd := -1, errnoIsWouldBlock := true } = LibOutcome.fatal := by
  rfl

/-- C4 (amended): Accept escalates every accept failure — the would-block
condition included, since errno is never consulted — to a fatal abort; on
success it returns a handle on the new descriptor. -/
theorem tcpAccept_spec :
    (∀ b : Bool, tcpAccept { newfd := -1, errnoIsWouldBlock := b } = LibOutcome.fatal) ∧
    (∀ fd : Int, fd ≠ -1 →
      ∀ b : Bool, tcpAccept { newfd := fd, errnoIsWouldBlock := b } = LibOutcome.normal fd) := by
  constructor
  · intro b
    rfl
  · intro fd hfd b
    simp [tcpAccept, hfd]

/-- C4 witness: a successful accept of descriptor 7 is returned as a
normal handle. -/
theorem tcpAccept_spec_witness :
    (7 : Int) ≠ -1 ∧
    tcpAccept { newfd := 7, errnoIsWouldBlock := false } = LibOutcome.normal 7 :=
  ⟨by decide, tcpAccept_spec.2 7 (by decide) false⟩

/-- C6 counterexample: when the listen syscall fails (returns -1),
TCPSocket::Listen does not abort — it returns normally, silently ignoring
the failure. -/
theorem tcpListen_ignores_failure :
    tcpListen (-1) = LibOutcome.normal () := by
  rfl

/-- C6 (amended): Listen discards the return value of the listen syscall
and returns normally whatever that value was; a listen failure is
silently ignored, never escalated to a fatal abort. -/
theorem tcpListen_spec :
    ∀ r : Int, tcpListen r = LibOutcome.normal () := by
  intro r
  rfl

/-- C5: a freshly created handle (socket returned a descriptor accepted
by Create) closes successfully exactly once — the descriptor is replaced
by the INVALID_SOCKET sentinel — a second Close on the resulting handle
reports an error, and Close on an invalid handle always reports an
error. -/
theorem socketClose_spec (ret fd : Int) (h : socketCreate ret = some fd) :
    socketClose fd = (-1, CloseOutcome.closed) ∧
    (socketClose (socketClose fd).1).2 = CloseOutcome.errorReported ∧
    (socketClose (-1)).2 = CloseOutcome.errorReported := by
  have hfd : fd ≠ -1 := by
    unfold socketCreate at h
    by_cases hr : ret = -1
    · simp [hr] at h
    · simp [hr] at h
      omega
  refine ⟨?_, ?_, ?_⟩
  · simp [socketClose, hfd]
  · simp [socketClose, hfd]
  · simp [socketClose]

/-- C5 witness: create with descriptor 4, close once, close again. -/
theorem socketClose_spec_witness :
    socketCreate 4 = some 4 ∧
    socketClose 4 = (-1, CloseOutcome.closed) ∧
    (socketClose (socketClose 4).1).2 = CloseOutcome.errorReported ∧
    (socketClose (-1)).2 = CloseOutcome.errorReported :=
  ⟨by decide, socketClose_spec 4 4 (by decide)⟩

/-- C7: Send and Recv with a zero-length buffer return 0 without issuing
any syscall, and for a non-empty buffer a failing syscall (raw return
-1) makes them return -1 (one syscall issued). -/
theorem tcpSendRecv_spec (len : Nat) (r : Int) (h : len ≠ 0) :
    tcpSend 0 r = (0, 0) ∧
    tcpRecv 0 r = (0, 0) ∧
    tcpSend len (-1) = (-1, 1) ∧
    tcpRecv len (-1) = (-1, 1) := by
  refine ⟨rfl, rfl, ?_, ?_⟩
  · simp [tcpSend, h]
  · simp [tcpRecv, h]

/-- C7 witness: a 3-byte buffer with a failing syscall, and zero-length
calls with an arbitrary raw return of 9. -/
theorem tcpSendRecv_spec_witness :
    (3 : Nat) ≠ 0 ∧
    tcpSend 0 9 = (0, 0) ∧
    tcpRecv 0 9 = (0, 0) ∧
    tcpSend 3 (-1) = (-1, 1) ∧
    tcpRecv 3 (-1) = (-1, 1) :=
  ⟨by decide, tcpSendRecv_spec 3 9 (by decide)⟩

/-- C8: for every resolvable host and every port in [0, 65535],
SockAddr::Set followed by SockAddr::port returns exactly the original
port (htons/ntohs round-trip), and a host that does not resolve aborts
Set. -/
theorem sockAddr_port_roundtrip (hostBytes : List Nat) (p : Nat) (h : p ≤ 65535) :
    (sockAddrSet (some hostBytes) p).map sockAddrPort = some p ∧
    sockAddrSet none p = none := by
  refine ⟨?_, rfl⟩
  have hp : sockAddrPort { sin_port := htons p, sin_addr := hostBytes } = p := by
    unfold sockAddrPort ntohs htons
    rw [Nat.mod_eq_of_lt (by omega : p < 65536)]
    exact swap16_swap16 p (by omega)
  have hmap : (sockAddrSet (some hostBytes) p).map sockAddrPort
      = some (sockAddrPort { sin_port := htons p, sin_addr := hostBytes }) := rfl
  rw [hmap, hp]

/-- C8 witness: resolving 127.0.0.1 with port 8080 round-trips. -/
theorem sockAddr_port_roundtrip_witness :
    (8080 : Nat) ≤ 65535 ∧
    (sockAddrSet (some [127, 0, 0, 1]) 8080).map sockAddrPort = some 8080 ∧
    sockAddrSet (none : Option (List Nat)) 8080 = none :=
  ⟨by decide, sockAddr_port_roundtrip [127, 0, 0, 1] 8080 (by decide)⟩

/-- C10: SelectHelper::Select passes the null timeout (block forever) to
select when the timeout argument is exactly 0, and for every positive
timeout passes a finite timeval of timeout / 1000 seconds and
(timeout mod 1000) * 1000 microseconds. -/
theorem selectTimeoutArg_spec :
    selectTimeoutArg 0 = TimeoutArg.blockForever ∧
    ∀ t : Int, 0 < t →
      selectTimeoutArg t = TimeoutArg.finite (t / 1000) (t % 1000 * 1000) := by
  refine ⟨rfl, ?_⟩
  intro t ht
  have : t ≠ 0 := by omega
  simp [selectTimeoutArg, this]

/-- C10 witness: 0 blocks forever; 2500 ms becomes 2 s + 500000 us. -/
theorem selectTimeoutArg_spec_witness :
    selectTimeoutArg 0 = TimeoutArg.blockForever ∧
    (0 : Int) < 2500 ∧
    selectTimeoutArg 2500 = TimeoutArg.finite 2 500000 := by
  refine ⟨selectTimeoutArg_spec.1, by decide, ?_⟩
  have h := selectTimeoutArg_spec.2 2500 (by decide)
  rw [h]
  decide

/-- The port scan of TryBindHost, fuel-indexed: a bound port is the first
in the window whose bind succeeded, noPort means every port in the window
was in use, and a fatal abort names a port whose bind failed with an
unexpected errno after only in-use ports. -/
theorem tryBindAux_spec (env : Int → BindRes) :
    ∀ (fuel : Nat) (port : Int),
    (∀ p, tryBindAux env fuel port = BindOutcome.bound p →
      port ≤ p ∧ p < port + fuel ∧ env p = BindRes.ok ∧
      ∀ q, port ≤ q → q < p → env q = BindRes.inuse) ∧
    (tryBindAux env fuel port = BindOutcome.noPort ↔
      ∀ q, port ≤ q → q < port + fuel → env q = BindRes.inuse) ∧
    (∀ p, tryBindAux env fuel port = BindOutcome.fatal p →
      port ≤ p ∧ p < port + fuel ∧ env p = BindRes.errOther ∧
      ∀ q, port ≤ q → q < p → env q = BindRes.inuse) := by
  intro fuel
  induction fuel with
  | zero =>
    intro port
    refine ⟨?_, ?_, ?_⟩
    · intro p hp
      simp [tryBindAux] at hp
    · constructor
      · intro _ q hq1 hq2
        exact absurd hq2 (by omega)
      · intro _
        rfl
    · intro p hp
      simp [tryBindAux] at hp
  | succ n ih =>
    intro port
    obtain ⟨ihb, ihn, ihf⟩ := ih (port + 1)
    cases henv : env port with
    | ok =>
      have hred : tryBindAux env (n + 1) port = BindOutcome.bound port := by
        simp [tryBindAux, henv]
      refine ⟨?_, ?_, ?_⟩
      · intro p hp
        rw [hred] at hp
        injection hp with hpp
        subst hpp
        refine ⟨le_refl _, by omega, henv, ?_⟩
        intro q hq1 hq2
        exact absurd hq2 (by omega)
      · rw [hred]
        constructor
        · intro hcon
          simp at hcon
        · intro hall
          exfalso
          have hpu := hall port (le_refl _) (by omega)
          rw [henv] at hpu
          exact absurd hpu (by simp)
      · intro p hp
        rw [hred] at hp
        simp at hp
    | inuse =>
      have hred : tryBindAux env (n + 1) port = tryBindAux env n (port + 1) := by
        simp [tryBindAux, henv]
      refine ⟨?_, ?_, ?_⟩
      · intro p hp
        rw [hred] at hp
        obtain ⟨h1, h2, h3, h4⟩ := ihb p hp
        refine ⟨by omega, by push_cast at h2 ⊢; omega, h3, ?_⟩
        intro q hq1 hq2
        rcases eq_or_lt_of_le hq1 with hq | hq
        · rw [← hq]
          exact henv
        · exact h4 q (by omega) hq2
      · rw [hred, ihn]
        constructor
        · intro hall q hq1 hq2
          rcases eq_or_lt_of_le hq1 with hq | hq
          · rw [← hq]
            exact henv
          · exact hall q (by omega) (by push_cast at hq2 ⊢; omega)
        · intro hall q hq1 hq2
          exact hall q (by omega) (by push_cast at hq2 ⊢; omega)
      · intro p hp
        rw [hred] at hp
        obtain ⟨h1, h2, h3, h4⟩ := ihf p hp
        refine ⟨by omega, by push_cast at h2 ⊢; omega, h3, ?_⟩
        intro q hq1 hq2
        rcases eq_or_lt_of_le hq1 with hq | hq
        · rw [← hq]
          exact henv
        · exact h4 q (by omega) hq2
    | errOther =>
      have hred : tryBindAux env (n + 1) port = BindOutcome.fatal port := by
        simp [tryBindAux, henv]
      refine ⟨?_, ?_, ?_⟩
      · intro p hp
        rw [hred] at hp
        simp at hp
      · rw [hred]
        constructor
        · intro hcon
          simp at hcon
        · intro hall
          exfalso
          have hpu := hall port (le_refl _) (by omega)
          rw [henv] at hpu
          exact absurd hpu (by simp)
      · intro p hp
        rw [hred] at hp
        injection hp with hpp
        subst hpp
        refine ⟨le_refl _, by omega, henv, ?_⟩
        intro q hq1 hq2
        exact absurd hq2 (by omega)

/-- C3: for start_port <= end_port, TryBindHost returns only ports of
[start_port, end_port), namely the first whose bind succeeded after every
earlier candidate failed with address-in-use; it returns the sentinel -1
exactly when every candidate was in use; and it aborts fatally only at a
port of the range whose bind failed with an unexpected errno, every
earlier candidate having been in use. -/
theorem tryBindHost_spec (env : Int → BindRes) (s e : Int) (h : s ≤ e) :
    (∀ p, tryBindHost env s e = BindOutcome.bound p →
      s ≤ p ∧ p < e ∧ env p = BindRes.ok ∧
      ∀ q, s ≤ q → q < p → env q = BindRes.inuse) ∧
    (tryBindHost env s e = BindOutcome.noPort ↔
      ∀ q, s ≤ q → q < e → env q = BindRes.inuse) ∧
    (∀ p, tryBindHost env s e = BindOutcome.fatal p →
      s ≤ p ∧ p < e ∧ env p = BindRes.errOther ∧
      ∀ q, s ≤ q → q < p → env q = BindRes.inuse) := by
  have heq : s + (((e - s).toNat : Nat) : Int) = e := by
    have := Int.toNat_of_nonneg (by omega : (0 : Int) ≤ e - s)
    omega
  obtain ⟨hb, hn, hf⟩ := tryBindAux_spec env (e - s).toNat s
  rw [heq] at hb hn hf
  exact ⟨hb, hn, hf⟩

/-- C3 witness: with every port below 9002 in use and the rest free,
scanning [9000, 9005) binds 9002. -/
theorem tryBindHost_spec_witness :
    (9000 : Int) ≤ 9005 ∧ envBindW 9002 = BindRes.ok :=
  ⟨by decide,
   ((tryBindHost_spec envBindW 9000 9005 (by decide)).1 9002 (by decide)).2.2.1⟩

/-- Bumping maxfd while appending one non-negative descriptor preserves
the SelectHelper invariant. -/
theorem goodHelper_watch (s : SelectHelper) (fd : Int) (t : SelectHelper)
    (hmax : t.maxfd = if fd > s.maxfd then fd else s.maxfd)
    (hmemEq : ∀ g : Int, g ∈ t.allFds ↔ g ∈ s.allFds ∨ g = fd)
    (hs : goodHelper s) (hfd : 0 ≤ fd) : goodHelper t := by
  obtain ⟨hbound, hmem, hnn⟩ := hs
  have hm1 : s.maxfd ≤ t.maxfd := by
    rw [hmax]
    split <;> omega
  have hm2 : fd ≤ t.maxfd := by
    rw [hmax]
    split <;> omega
  refine ⟨?_, ?_, ?_⟩
  · intro g hg
    rcases (hmemEq g).1 hg with hgo | hge
    · exact le_trans (hbound g hgo) hm1
    · rw [hge]
      exact hm2
  · by_cases hgt : fd > s.maxfd
    · right
      rw [hmax, if_pos hgt]
      exact (hmemEq fd).2 (Or.inr rfl)
    · rw [hmax, if_neg hgt]
      rcases hmem with h0 | hm
      · exact Or.inl h0
      · exact Or.inr ((hmemEq _).2 (Or.inl hm))
  · intro g hg
    rcases (hmemEq g).1 hg with hgo | hge
    · exact hnn g hgo
    · rw [hge]
      exact hfd

/-- Every SelectHelper call with a non-negative descriptor preserves the
invariant. -/
theorem goodHelper_step (s : SelectHelper) (op : WatchOp)
    (hs : goodHelper s) (hop : op.fdNonneg = true) : goodHelper (applyOp s op) := by
  cases op with
  | wr fd =>
    have hfd : 0 ≤ fd := by simpa [WatchOp.fdNonneg] using hop
    refine goodHelper_watch s fd _ rfl ?_ hs hfd
    intro g
    simp [SelectHelper.allFds, SelectHelper.watchRead, applyOp, List.mem_append]
    tauto
  | ww fd =>
    have hfd : 0 ≤ fd := by simpa [WatchOp.fdNonneg] using hop
    refine goodHelper_watch s fd _ rfl ?_ hs hfd
    intro g
    simp [SelectHelper.allFds, SelectHelper.watchWrite, applyOp, List.mem_append]
    tauto
  | we fd =>
    have hfd : 0 ≤ fd := by simpa [WatchOp.fdNonneg] using hop
    refine goodHelper_watch s fd _ rfl ?_ hs hfd
    intro g
    simp [SelectHelper.allFds, SelectHelper.watchException, applyOp, List.mem_append]
    tauto
  | clearOp =>
    refine ⟨?_, Or.inl rfl, ?_⟩ <;> intro g hg <;>
      simp [SelectHelper.allFds, SelectHelper.clearAll, applyOp] at hg

/-- The freshly constructed SelectHelper satisfies the invariant. -/
theorem goodHelper_init : goodHelper initHelper := by
  refine ⟨?_, Or.inl rfl, ?_⟩ <;> intro g hg <;>
    simp [SelectHelper.allFds, initHelper] at hg

/-- Folding any sequence of non-negative-descriptor calls over a state
satisfying the invariant keeps it. -/
theorem goodHelper_run (ops : List WatchOp) :
    ∀ s : SelectHelper, goodHelper s → (∀ op ∈ ops, op.fdNonneg = true) →
    goodHelper (ops.foldl applyOp s) := by
  induction ops with
  | nil =>
    intro s hs _
    simpa using hs
  | cons op rest ih =>
    intro s hs hops
    rw [List.foldl_cons]
    exact ih (applyOp s op) (goodHelper_step s op hs (hops op (by simp)))
      (fun o ho => hops o (by simp [ho]))

/-- C9: for every sequence of Watch/Clear calls whose registered
descriptors are non-negative, the tracked maxfd bounds every descriptor
registered since the last Clear, is 0 when none is registered, and is
itself one of the registered descriptors otherwise; Clear always empties
the three interest sets and resets maxfd to 0. -/
theorem selectHelper_spec (ops : List WatchOp) (h : ops.all WatchOp.fdNonneg = true) :
    (∀ fd ∈ (runOps ops).allFds, fd ≤ (runOps ops).maxfd) ∧
    ((runOps ops).allFds = [] → (runOps ops).maxfd = 0) ∧
    ((runOps ops).allFds ≠ [] → (runOps ops).maxfd ∈ (runOps ops).allFds) ∧
    (∀ t : SelectHelper, t.clearAll = initHelper) := by
  have hops : ∀ op ∈ ops, op.fdNonneg = true := fun op hop => List.all_eq_true.1 h op hop
  have hg : goodHelper (runOps ops) := goodHelper_run ops initHelper goodHelper_init hops
  obtain ⟨hbound, hmem, hnn⟩ := hg
  refine ⟨hbound, ?_, ?_, fun t => rfl⟩
  · intro hemp
    rcases hmem with h0 | hm
    · exact h0
    · rw [hemp] at hm
      simp at hm
  · intro hne
    rcases hmem with h0 | hm
    · rw [h0]
      cases hall : (runOps ops).allFds with
      | nil => exact absurd hall hne
      | cons a rest =>
        have ha1 : a ≤ (runOps ops).maxfd := hbound a (by rw [hall]; simp)
        have ha2 : 0 ≤ a := hnn a (by rw [hall]; simp)
        have haz : a = 0 := by omega
        rw [← haz]
        exact List.mem_cons_self a rest
    · exact hm

/-- C9 witness: the calls WatchRead 3, Clear, WatchWrite 2,
WatchException 5, WatchRead 0 leave maxfd registered among the watched
descriptors. -/
theorem selectHelper_spec_witness :
    ([WatchOp.wr 3, WatchOp.clearOp, WatchOp.ww 2, WatchOp.we 5,
      WatchOp.wr 0].all WatchOp.fdNonneg = true) ∧
    (runOps [WatchOp.wr 3, WatchOp.clearOp, WatchOp.ww 2, WatchOp.we 5,
      WatchOp.wr 0]).maxfd ∈
      (runOps [WatchOp.wr 3, WatchOp.clearOp, WatchOp.ww 2, WatchOp.we 5,
        WatchOp.wr 0]).allFds :=
  ⟨by decide,
   (selectHelper_spec [WatchOp.wr 3, WatchOp.clearOp, WatchOp.ww 2, WatchOp.we 5,
      WatchOp.wr 0] (by decide)).2.2.1 (by decide)⟩

/-- When ndone has reached len, the SendAll loop exits returning ndone. -/
theorem sendAllAux_ge (buf : List Nat) (env : List SysRes) (ndone : Nat)
    (h : ¬ ndone < buf.length) :
    sendAllAux buf env ndone = ⟨[], [], SendOutcome.complete ndone⟩ := by
  rw [sendAllAux.eq_def]
  simp [h]

/-- An exhausted environment with bytes outstanding is an unmodelled
(hanging) SendAll run. -/
theorem sendAllAux_nil (buf : List Nat) (ndone : Nat) (h : ndone < buf.length) :
    sendAllAux buf [] ndone = ⟨[], [], SendOutcome.hang⟩ := by
  rw [sendAllAux.eq_def]
  simp [h]

/-- A would-block send result makes SendAll return the partial count. -/
theorem sendAllAux_wb (buf : List Nat) (rest : List SysRes) (ndone : Nat)
    (h : ndone < buf.length) :
    sendAllAux buf (SysRes.wouldblock :: rest) ndone
      = ⟨[(ndone, buf.length - ndone)], [], SendOutcome.wouldBlock ndone⟩ := by
  rw [sendAllAux.eq_def]
  simp [h]

/-- Any other send failure aborts SendAll via Socket::Error. -/
theorem sendAllAux_err (buf : List Nat) (rest : List SysRes) (ndone : Nat)
    (h : ndone < buf.length) :
    sendAllAux buf (SysRes.err :: rest) ndone
      = ⟨[(ndone, buf.length - ndone)], [], SendOutcome.fatal⟩ := by
  rw [sendAllAux.eq_def]
  simp [h]

/-- A successful send of k bytes advances the SendAll loop. -/
theorem sendAllAux_ok (buf : List Nat) (rest : List SysRes) (k ndone : Nat)
    (h : ndone < buf.length) :
    sendAllAux buf (SysRes.ok k :: rest) ndone
      = ⟨(ndone, buf.length - ndone) :: (sendAllAux buf rest (ndone + k)).reqs,
         (buf.drop ndone).take k ++ (sendAllAux buf rest (ndone + k)).wire,
         (sendAllAux buf rest (ndone + k)).out⟩ := by
  rw [sendAllAux.eq_def]
  simp [h]

/-- Invariant of the SendAll loop from an arbitrary offset: every issued
request asks for exactly the bytes remaining past its offset, a normal
exit means the whole rest of the buffer went out on the wire, a
would-block exit returns the offset plus the bytes accepted so far (a
prefix of the remaining buffer), and a fatal exit only follows an err
syscall result. -/
theorem sendAllAux_spec (buf : List Nat) (env : List SysRes) :
    ∀ ndone : Nat, ndone ≤ buf.length →
    envOk buf.length env ndone = true →
    (∀ p ∈ (sendAllAux buf env ndone).reqs, p.2 = buf.length - p.1) ∧
    (∀ n, (sendAllAux buf env ndone).out = SendOutcome.complete n →
      n = buf.length ∧ (sendAllAux buf env ndone).wire = buf.drop ndone) ∧
    (∀ n, (sendAllAux buf env ndone).out = SendOutcome.wouldBlock n →
      n = ndone + (sendAllAux buf env ndone).wire.length ∧
      (sendAllAux buf env ndone).wire
        = (buf.drop ndone).take ((sendAllAux buf env ndone).wire.length)) ∧
    ((sendAllAux buf env ndone).out = SendOutcome.fatal → SysRes.err ∈ env) := by
  induction env with
  | nil =>
    intro ndone hle _
    by_cases hlt : ndone < buf.length
    · rw [sendAllAux_nil buf ndone hlt]
      refine ⟨by simp, by simp, by simp, by simp⟩
    · rw [sendAllAux_ge buf [] ndone hlt]
      refine ⟨by simp, ?_, by simp, by simp⟩
      intro n hn
      simp only [SendOutcome.complete.injEq] at hn
      subst hn
      exact ⟨by omega, by simp [List.drop_eq_nil_of_le (by omega : buf.length ≤ ndone)]⟩
  | cons r rest ih =>
    intro ndone hle hok
    by_cases hlt : ndone < buf.length
    · cases r with
      | wouldblock =>
        rw [sendAllAux_wb buf rest ndone hlt]
        refine ⟨?_, by simp, ?_, by simp⟩
        · intro p hp
          simp only [List.mem_singleton] at hp
          subst hp
          rfl
        · intro n hn
          simp only [SendOutcome.wouldBlock.injEq] at hn
          subst hn
          exact ⟨by simp, by simp⟩
      | err =>
        rw [sendAllAux_err buf rest ndone hlt]
        refine ⟨?_, by simp, by simp, ?_⟩
        · intro p hp
          simp only [List.mem_singleton] at hp
          subst hp
          rfl
        · intro _
          exact List.mem_cons_self _ _
      | ok k =>
        have hkk : k ≤ buf.length - ndone ∧ envOk buf.length rest (ndone + k) = true := by
          simpa [envOk, Bool.and_eq_true] using hok
        have hle2 : ndone + k ≤ buf.length := by omega
        obtain ⟨iha, ihb, ihc, ihd⟩ := ih (ndone + k) hle2 hkk.2
        rw [sendAllAux_ok buf rest k ndone hlt]
        have hlen : ((buf.drop ndone).take k).length = k := by
          rw [List.length_take, List.length_drop]
          omega
        have hdd : (buf.drop ndone).drop k = buf.drop (ndone + k) := by
          rw [List.drop_drop]
        refine ⟨?_, ?_, ?_, ?_⟩
        · intro p hp
          simp only [List.mem_cons] at hp
          rcases hp with hp | hp
          · subst hp
            rfl
          · exact iha p hp
        · intro n hn
          simp only at hn
          obtain ⟨hn1, hn2⟩ := ihb n hn
          refine ⟨hn1, ?_⟩
          simp only
          rw [hn2, ← hdd, List.take_append_drop]
        · intro n hn
          simp only at hn
          obtain ⟨hn1, hn2⟩ := ihc n hn
          simp only [List.length_append, hlen]
          constructor
          · omega
          · rw [List.take_add, hdd, ← hn2]
        · intro hf
          simp only at hf
          exact List.mem_cons_of_mem _ (ihd hf)
    · rw [sendAllAux_ge buf _ ndone hlt]
      refine ⟨by simp, ?_, by simp, by simp⟩
      intro n hn
      simp only [SendOutcome.complete.injEq] at hn
      subst hn
      exact ⟨by omega, by simp [List.drop_eq_nil_of_le (by omega : buf.length ≤ ndone)]⟩

/-- C1: for every buffer, SendAll issues sends whose requested count is
always the bytes remaining past the current offset; a run in which no
would-block and no failure occurs returns exactly the buffer length and
puts the entire buffer on the wire byte-for-byte; a would-block run
returns exactly the partial count transmitted so far (a prefix of the
buffer); and a fatal abort arises only from a failing send. -/
theorem sendAll_spec (buf : List Nat) (env : List SysRes)
    (h : envOk buf.length env 0 = true) :
    (∀ p ∈ (sendAll buf env).reqs, p.2 = buf.length - p.1) ∧
    (∀ n, (sendAll buf env).out = SendOutcome.complete n →
      n = buf.length ∧ (sendAll buf env).wire = buf) ∧
    (∀ n, (sendAll buf env).out = SendOutcome.wouldBlock n →
      n = (sendAll buf env).wire.length ∧ (sendAll buf env).wire = buf.take n) ∧
    ((sendAll buf env).out = SendOutcome.fatal → SysRes.err ∈ env) := by
  obtain ⟨ha, hb, hc, hd⟩ := sendAllAux_spec buf env 0 (by omega) h
  refine ⟨ha, ?_, ?_, hd⟩
  · intro n hn
    obtain ⟨h1, h2⟩ := hb n hn
    rw [List.drop_zero] at h2
    exact ⟨h1, h2⟩
  · intro n hn
    obtain ⟨h1, h2⟩ := hc n hn
    rw [List.drop_zero] at h2
    rw [Nat.zero_add] at h1
    refine ⟨h1, ?_⟩
    rw [h1]
    exact h2

/-- C1 witness: sending the 3-byte buffer 7,8,9 against sends accepting
2 then 1 bytes completes, returning 3 with the full buffer on the
wire. -/
theorem sendAll_spec_witness :
    envOk ([7, 8, 9] : List Nat).length [SysRes.ok 2, SysRes.ok 1] 0 = true ∧
    (3 = ([7, 8, 9] : List Nat).length ∧
      (sendAll [7, 8, 9] [SysRes.ok 2, SysRes.ok 1]).wire = [7, 8, 9]) :=
  ⟨by decide,
   (sendAll_spec [7, 8, 9] [SysRes.ok 2, SysRes.ok 1] (by decide)).2.1 3 (by decide)⟩

/-- When ndone has reached len, the RecvAll loop exits returning ndone. -/
theorem recvAllAux_ge (len : Nat) (env : List SysRes) (ndone : Nat)
    (h : ¬ ndone < len) :
    recvAllAux len env ndone = ⟨[], [], RecvOutcome.complete ndone⟩ := by
  rw [recvAllAux.eq_def]
  simp [h]

/-- An exhausted environment with bytes outstanding is an unmodelled
(hanging) RecvAll run. -/
theorem recvAllAux_nil (len ndone : Nat) (h : ndone < len) :
    recvAllAux len [] ndone = ⟨[], [], RecvOutcome.hang⟩ := by
  rw [recvAllAux.eq_def]
  simp [h]

/-- A would-block recv result makes RecvAll return the partial count. -/
theorem recvAllAux_wb (len : Nat) (rest : List SysRes) (ndone : Nat)
    (h : ndone < len) :
    recvAllAux len (SysRes.wouldblock :: rest) ndone
      = ⟨[(ndone, len - ndone)], [], RecvOutcome.wouldBlock ndone⟩ := by
  rw [recvAllAux.eq_def]
  simp [h]

/-- Any other recv failure aborts RecvAll via Socket::Error. -/
theorem recvAllAux_err (len : Nat) (rest : List SysRes) (ndone : Nat)
    (h : ndone < len) :
    recvAllAux len (SysRes.err :: rest) ndone
      = ⟨[(ndone, len - ndone)], [], RecvOutcome.fatal⟩ := by
  rw [recvAllAux.eq_def]
  simp [h]

/-- A zero-byte read (peer shutdown) makes RecvAll return the partial
count. -/
theorem recvAllAux_eof (len : Nat) (rest : List SysRes) (ndone : Nat)
    (h : ndone < len) :
    recvAllAux len (SysRes.ok 0 :: rest) ndone
      = ⟨[(ndone, len - ndone)], [], RecvOutcome.eof ndone⟩ := by
  rw [recvAllAux.eq_def]
  simp [h]

/-- A successful recv of k > 0 bytes advances the RecvAll loop. -/
theorem recvAllAux_ok (len : Nat) (rest : List SysRes) (k ndone : Nat)
    (h : ndone < len) (hk : k ≠ 0) :
    recvAllAux len (SysRes.ok k :: rest) ndone
      = ⟨(ndone, len - ndone) :: (recvAllAux len rest (ndone + k)).reqs,
         k :: (recvAllAux len rest (ndone + k)).got,
         (recvAllAux len rest (ndone + k)).out⟩ := by
  rw [recvAllAux.eq_def]
  simp [h, hk]

/-- Invariant of the RecvAll loop from an arbitrary offset: every issued
request asks for exactly the bytes remaining past its offset, a normal
exit returns len, a would-block or zero-byte-read exit returns the
offset plus the total bytes delivered so far (below len in the
zero-byte-read case), and a fatal exit only follows an err result. -/
theorem recvAllAux_spec (len : Nat) (env : List SysRes) :
    ∀ ndone : Nat, ndone ≤ len →
    envOk len env ndone = true →
    (∀ p ∈ (recvAllAux len env ndone).reqs, p.2 = len - p.1) ∧
    (∀ n, (recvAllAux len env ndone).out = RecvOutcome.complete n → n = len) ∧
    (∀ n, (recvAllAux len env ndone).out = RecvOutcome.wouldBlock n →
      n = ndone + (recvAllAux len env ndone).got.sum) ∧
    (∀ n, (recvAllAux len env ndone).out = RecvOutcome.eof n →
      n = ndone + (recvAllAux len env ndone).got.sum ∧ n < len) ∧
    ((recvAllAux len env ndone).out = RecvOutcome.fatal → SysRes.err ∈ env) := by
  induction env with
  | nil =>
    intro ndone hle _
    by_cases hlt : ndone < len
    · rw [recvAllAux_nil len ndone hlt]
      exact ⟨by simp, by simp, by simp, by simp, by simp⟩
    · rw [recvAllAux_ge len [] ndone hlt]
      refine ⟨by simp, ?_, by simp, by simp, by simp⟩
      intro n hn
      simp only [RecvOutcome.complete.injEq] at hn
      omega
  | cons r rest ih =>
    intro ndone hle hok
    by_cases hlt : ndone < len
    · cases r with
      | wouldblock =>
        rw [recvAllAux_wb len rest ndone hlt]
        refine ⟨?_, by simp, ?_, by simp, by simp⟩
        · intro p hp
          simp only [List.mem_singleton] at hp
          subst hp
          rfl
        · intro n hn
          simp only [RecvOutcome.wouldBlock.injEq] at hn
          subst hn
          simp
      | err =>
        rw [recvAllAux_err len rest ndone hlt]
        refine ⟨?_, by simp, by simp, by simp, ?_⟩
        · intro p hp
          simp only [List.mem_singleton] at hp
          subst hp
          rfl
        · intro _
          exact List.mem_cons_self _ _
      | ok k =>
        have hkk : k ≤ len - ndone ∧ envOk len rest (ndone + k) = true := by
          simpa [envOk, Bool.and_eq_true] using hok
        by_cases hk : k = 0
        · subst hk
          rw [recvAllAux_eof len rest ndone hlt]
          refine ⟨?_, by simp, by simp, ?_, by simp⟩
          · intro p hp
            simp only [List.mem_singleton] at hp
            subst hp
            rfl
          · intro n hn
            simp only [RecvOutcome.eof.injEq] at hn
            subst hn
            exact ⟨by simp, hlt⟩
        · have hle2 : ndone + k ≤ len := by omega
          obtain ⟨iha, ihb, ihc, ihd, ihe⟩ := ih (ndone + k) hle2 hkk.2
          rw [recvAllAux_ok len rest k ndone hlt hk]
          refine ⟨?_, ?_, ?_, ?_, ?_⟩
          · intro p hp
            simp only [List.mem_cons] at hp
            rcases hp with hp | hp
            · subst hp
              rfl
            · exact iha p hp
          · intro n hn
            simp only at hn
            exact ihb n hn
          · intro n hn
            simp only at hn
            have := ihc n hn
            simp only [List.sum_cons]
            omega
          · intro n hn
            simp only at hn
            obtain ⟨h1, h2⟩ := ihd n hn
            simp only [List.sum_cons]
            exact ⟨by omega, h2⟩
          · intro hf
            simp only at hf
            exact List.mem_cons_of_mem _ (ihe hf)
    · rw [recvAllAux_ge len _ ndone hlt]
      refine ⟨by simp, ?_, by simp, by simp, by simp⟩
      intro n hn
      simp only [RecvOutcome.complete.injEq] at hn
      omega

/-- C2: for every requested length, RecvAll issues recvs whose requested
count is always the bytes remaining past the current offset; a normal
exit returns exactly len; a would-block exit returns exactly the bytes
accumulated so far; a zero-byte read (peer shutdown after delivering N
bytes) makes it return exactly N < len as an ordinary partial result,
distinct from the fatal path; and a fatal abort arises only from a
failing recv. -/
theorem recvAll_spec (len : Nat) (env : List SysRes)
    (h : envOk len env 0 = true) :
    (∀ p ∈ (recvAll len env).reqs, p.2 = len - p.1) ∧
    (∀ n, (recvAll len env).out = RecvOutcome.complete n → n = len) ∧
    (∀ n, (recvAll len env).out = RecvOutcome.wouldBlock n →
      n = (recvAll len env).got.sum) ∧
    (∀ n, (recvAll len env).out = RecvOutcome.eof n →
      n = (recvAll len env).got.sum ∧ n < len) ∧
    ((recvAll len env).out = RecvOutcome.fatal → SysRes.err ∈ env) := by
  obtain ⟨ha, hb, hc, hd, he⟩ := recvAllAux_spec len env 0 (by omega) h
  refine ⟨ha, hb, ?_, ?_, he⟩
  · intro n hn
    have h2 := hc n hn
    simpa using h2
  · intro n hn
    obtain ⟨h1, h2⟩ := hd n hn
    exact ⟨by simpa using h1, h2⟩

/-- C2 witness: asking for 5 bytes from a peer that delivers 2 bytes and
then closes returns exactly 2. -/
theorem recvAll_spec_witness :
    envOk 5 [SysRes.ok 2, SysRes.ok 0] 0 = true ∧
    (2 = (recvAll 5 [SysRes.ok 2, SysRes.ok 0]).got.sum ∧ 2 < 5) :=
  ⟨by decide,
   (recvAll_spec 5 [SysRes.ok 2, SysRes.ok 0] (by decide)).2.2.2.1 2 (by decide)⟩
